import Mathlib

/-!
Verification of the settlement/split core of the group expense application.

The Python source works with arbitrary-precision `Decimal` values; we embed
Money as `ℚ` (exact rational arithmetic). Every property below is stated at
the granularity of the 0.01 tolerance used throughout the source, far above
the 28-significant-digit rounding of `Decimal`, so the rational embedding is
faithful at that granularity. Exceptions raised by Python (`ValueError` for
split-validation failures, `ZeroDivisionError` / `decimal.DivisionByZero`
for divisions by zero) are embedded as an explicit `Except` error type.
-/

set_option maxRecDepth 100000

namespace ExpenseApp

/-- Split policy tag (`split_type` in `app/routes/expenses.py`). -/
inductive SplitType where
  | equal
  | unequal
  | custom
deriving DecidableEq, Repr

/-- The error kinds the split calculator can raise. `invalidSplit` embeds a
Python `ValueError` (the InvalidSplitError kind of the spec, carrying a
human-readable message); `divisionByZero` embeds the `Decimal` distinct
division-by-zero / invalid-operation exceptions, which are NOT `ValueError`. -/
inductive SplitError where
  | invalidSplit (msg : String)
  | divisionByZero
deriving DecidableEq, Repr

/-- One element of the `split_data` payload handed to `calculate_splits`:
a dict with a `user_id` and, depending on the policy, a `percentage`
(unequal) or an `amount` (custom). Both fields are modelled as present. -/
structure SplitItem where
  user_id : ℕ
  percentage : ℚ
  amount : ℚ
deriving DecidableEq, Repr

/-- The fields of the `expense` object that `calculate_splits` reads:
`expense.id`, `expense.amount` and `expense.group.members` (as user ids). -/
structure ExpenseInput where
  id : ℕ
  amount : ℚ
  members : List ℕ
deriving DecidableEq, Repr

/-- A produced `ExpenseSplit` record (`app/models/expense.py`): the fields
set by `calculate_splits`. -/
structure ExpenseSplit where
  expense_id : ℕ
  user_id : ℕ
  amount : ℚ
  percentage : ℚ
deriving DecidableEq, Repr

/-- Embedding of `calculate_splits` from `app/routes/expenses.py`.

* equal: one split per member with `amount = total / n`,
  `percentage = 100 / n`; the Python `total_amount / len(member_ids)`
  raises a `ZeroDivisionError` when the member list is empty, modelled as
  the `divisionByZero` error.
* unequal: Python `if not split_data` (true for `None` and for the empty
  list) raises `ValueError`, then the percentage total is checked against
  100 with the 0.01 tolerance.
* custom: the same missing-data check, then the amount total is checked
  against the expense total; the back-computed
  `percentage = (amount / total_amount) * 100` raises a `Decimal` division
  error when the expense total is zero (the list is nonempty at that
  point), modelled as the `divisionByZero` error. -/
def calculate_splits (e : ExpenseInput) (split_data : Option (List SplitItem))
    (split_type : SplitType) : Except SplitError (List ExpenseSplit) :=
  let total_amount : ℚ := e.amount
  match split_type with
  | .equal =>
      let member_ids := e.members
      if member_ids.length = 0 then
        .error .divisionByZero
      else
        .ok (member_ids.map fun user_id =>
          { expense_id := e.id
            user_id := user_id
            amount := total_amount / member_ids.length
            percentage := 100 / member_ids.length })
  | .unequal =>
      match split_data with
      | none => .error (.invalidSplit "Split data required for unequal split")
      | some l =>
        if l = [] then .error (.invalidSplit "Split data required for unequal split")
        else
          let total_percentage := (l.map (fun s => s.percentage)).sum
          if 1/100 < |total_percentage - 100| then
            .error (.invalidSplit "Percentages must add up to 100")
          else
            .ok (l.map fun s =>
              { expense_id := e.id
                user_id := s.user_id
                amount := total_amount * s.percentage / 100
                percentage := s.percentage })
  | .custom =>
      match split_data with
      | none => .error (.invalidSplit "Split data required for custom split")
      | some l =>
        if l = [] then .error (.invalidSplit "Split data required for custom split")
        else
          let total_split := (l.map (fun s => s.amount)).sum
          if 1/100 < |total_split - total_amount| then
            .error (.invalidSplit "Split amounts must equal total expense amount")
          else if total_amount = 0 then
            .error .divisionByZero
          else
            .ok (l.map fun s =>
              { expense_id := e.id
                user_id := s.user_id
                amount := s.amount
                percentage := s.amount / total_amount * 100 })

/-- Classifier for the InvalidSplitError kind: true exactly when the result
is a failure carrying the `invalidSplit` (Python `ValueError`) kind. -/
def isInvalidSplit : Except SplitError (List ExpenseSplit) → Bool
  | .error (.invalidSplit _) => true
  | _ => false

/-- Expense status (`status` column, one of pending / approved / rejected). -/
inductive EStatus where
  | pending
  | approved
  | rejected
deriving DecidableEq, Repr

/-- Payment status (`status` column, one of pending / completed / failed). -/
inductive PStatus where
  | pending
  | completed
  | failed
deriving DecidableEq, Repr

/-- The fields of an `Expense` row read by `calculate_balances`
(`app/models/expense.py`, `app/utils/settlement.py`). -/
structure Expense where
  group_id : ℕ
  amount : ℚ
  paid_by_id : ℕ
  status : EStatus
  splits : List ExpenseSplit
deriving DecidableEq, Repr

/-- The fields of a `Payment` row read by `calculate_balances`
(`app/models/payment.py`). -/
structure Payment where
  group_id : ℕ
  payer_id : ℕ
  payee_id : ℕ
  amount : ℚ
  status : PStatus
deriving DecidableEq, Repr

/-- One `balances[key] += value` update on a Python `defaultdict(Decimal)`,
modelled as an insertion-ordered association list with unique keys: an
existing key has its value updated in place, a new key is appended (Python
dicts preserve insertion order). -/
def dictAdd (d : List (ℕ × ℚ)) (u : ℕ) (v : ℚ) : List (ℕ × ℚ) :=
  if u ∈ d.map Prod.fst then
    d.map (fun e => if e.1 = u then (e.1, e.2 + v) else e)
  else
    d ++ [(u, v)]

/-- The sequence of `balances[...] += / -=` updates performed by
`calculate_balances` (`app/utils/settlement.py`), in execution order, as
(key, signed value) pairs: for every approved expense of the group, the
payer gains the amount and every split user loses the split amount; for
every completed payment of the group, the payer gains and the payee loses
the payment amount. -/
def balanceEvents (group_id : ℕ) (expenses : List Expense)
    (payments : List Payment) : List (ℕ × ℚ) :=
  ((expenses.filter fun e =>
      e.group_id = group_id ∧ e.status = EStatus.approved).flatMap
    fun e => (e.paid_by_id, e.amount) :: e.splits.map fun s => (s.user_id, -s.amount))
  ++ ((payments.filter fun p =>
      p.group_id = group_id ∧ p.status = PStatus.completed).flatMap
    fun p => [(p.payer_id, p.amount), (p.payee_id, -p.amount)])

/-- The `balances` defaultdict built by `calculate_balances` before the
final negligibility filter: all updates applied in execution order. -/
def balancesDict (group_id : ℕ) (expenses : List Expense)
    (payments : List Payment) : List (ℕ × ℚ) :=
  (balanceEvents group_id expenses payments).foldl (fun d e => dictAdd d e.1 e.2) []

/-- Embedding of `calculate_balances` (`app/utils/settlement.py`): the
balance dict restricted to entries with `abs(balance) > 0.01`. -/
def calculate_balances (group_id : ℕ) (expenses : List Expense)
    (payments : List Payment) : List (ℕ × ℚ) :=
  (balancesDict group_id expenses payments).filter fun e => (1 : ℚ)/100 < |e.2|

/-- The debtor list built by `optimize_settlements`: one
`(user_id, abs(balance))` pair per entry with negative balance, in
iteration order. -/
def debtorsOf (balances : List (ℕ × ℚ)) : List (ℕ × ℚ) :=
  (balances.filter fun e => e.2 < 0).map fun e => (e.1, |e.2|)

/-- The creditor list built by `optimize_settlements`: the entries with
positive balance, in iteration order. -/
def creditorsOf (balances : List (ℕ × ℚ)) : List (ℕ × ℚ) :=
  balances.filter fun e => 0 < e.2

/-- Python `list.sort(key=lambda x: x[1], reverse=True)`: a stable sort,
descending by the second component (ties keep their input order). -/
def sortDesc (l : List (ℕ × ℚ)) : List (ℕ × ℚ) :=
  l.mergeSort fun a b => decide (b.2 ≤ a.2)

/-- The `while i < len(debtors) and j < len(creditors)` matching loop of
`optimize_settlements`. Cursor advancement is modelled by dropping the head
of the corresponding list; entries before the cursors are never read again,
so this is the same computation. The loop emits
`min(debt_amount, credit_amount)`, subtracts it from both heads, then
advances each cursor whose remaining amount fell below 0.01. When the
debtor head keeps `da - s ≥ 0.01`, necessarily `s = ca` (the minimum), the
creditor remaining is exactly 0 < 0.01, and only the creditor cursor
advances — which is the shape of the third branch below. -/
def settleLoop : List (ℕ × ℚ) → List (ℕ × ℚ) → List (ℕ × ℕ × ℚ)
  | [], _ => []
  | _ :: _, [] => []
  | (d, da) :: ds, (c, ca) :: cs =>
    let s := min da ca
    (d, c, s) ::
      (if da - s < 1/100 then
        if ca - s < 1/100 then settleLoop ds cs
        else settleLoop ds ((c, ca - s) :: cs)
      else settleLoop ((d, da - s) :: ds) cs)
termination_by ds cs => ds.length + cs.length
decreasing_by all_goals simp +arith

/-- Embedding of `optimize_settlements` (`app/utils/settlement.py`): split
the balance mapping into debtors and creditors, sort each descending by
amount (stable), and run the greedy matching loop. -/
def optimize_settlements (balances : List (ℕ × ℚ)) : List (ℕ × ℕ × ℚ) :=
  settleLoop (sortDesc (debtorsOf balances)) (sortDesc (creditorsOf balances))

/-- Modelled from the spec (section 4.2.2, steps 3 to 5), for comparison
with the source embedding `settleLoop`: the two-cursor walk written exactly
as the spec describes it, with the two cursor-advance checks performed
independently of each other, and an explicit fuel bounding the number of
loop iterations. -/
def specWalk : ℕ → List (ℕ × ℚ) → List (ℕ × ℚ) → List (ℕ × ℕ × ℚ)
  | 0, _, _ => []
  | _ + 1, [], _ => []
  | _ + 1, _ :: _, [] => []
  | n + 1, (d, da) :: ds, (c, ca) :: cs =>
    let s := min da ca
    (d, c, s) ::
      specWalk n (if da - s < 1/100 then ds else (d, da - s) :: ds)
        (if ca - s < 1/100 then cs else (c, ca - s) :: cs)

/-- Modelled from the spec (section 4.2.2): partition, sort descending,
then walk with fuel equal to the total number of debtors and creditors. -/
def spec_optimize_settlements (balances : List (ℕ × ℚ)) : List (ℕ × ℕ × ℚ) :=
  let ds := sortDesc (debtorsOf balances)
  let cs := sortDesc (creditorsOf balances)
  specWalk (ds.length + cs.length) ds cs

/-- Per-key sum of a list of (key, signed value) update events: the value a
`defaultdict(Decimal)` holds at key `u` after applying all the events. -/
def entrySum (evs : List (ℕ × ℚ)) (u : ℕ) : ℚ :=
  ((evs.filter fun ev => ev.1 = u).map fun ev => ev.2).sum

/-- Modelled from the spec (section 4.2.1) and the wording of the balance
claim, for comparison with the source embedding `calculate_balances`: a
net balance per user written as four closed sums — approved expenses of
the group paid by the user, minus the user's split shares over those
approved expenses, plus completed payments the user made, minus completed
payments the user received. -/
def specNetBalance (group_id : ℕ) (expenses : List Expense)
    (payments : List Payment) (u : ℕ) : ℚ :=
  ((expenses.filter fun e => (e.group_id = group_id ∧ e.status = EStatus.approved)
      ∧ e.paid_by_id = u).map fun e => e.amount).sum
  - ((expenses.filter fun e => e.group_id = group_id
      ∧ e.status = EStatus.approved).map
      fun e => ((e.splits.filter fun s => s.user_id = u).map fun s => s.amount).sum).sum
  + ((payments.filter fun p => (p.group_id = group_id ∧ p.status = PStatus.completed)
      ∧ p.payer_id = u).map fun p => p.amount).sum
  - ((payments.filter fun p => (p.group_id = group_id ∧ p.status = PStatus.completed)
      ∧ p.payee_id = u).map fun p => p.amount).sum

end ExpenseApp

deriving instance DecidableEq for Except

namespace ExpenseApp

/-- Sum of a constant-valued map over a list. -/
lemma sum_map_const_rat {α : Type} (l : List α) (c : ℚ) :
    (l.map fun _ => c).sum = l.length * c := by
  induction l with
  | nil => simp
  | cons a t ih => simp [ih]; ring

/-- C1, counterexample. The claim asserts the split amounts always sum to
the expense amount within 0.01. For an unequal split of 300 with
percentages 50.005 and 50.005 the percentage total is 100.01, accepted by
the tolerance check (the excess is not strictly greater than 0.01), yet the
produced split amounts sum to 300.03, which is 0.03 away from the expense
amount. -/
theorem split_sum_tolerance_counterexample :
    calculate_splits ⟨0, 300, []⟩
        (some [⟨1, 10001/200, 0⟩, ⟨2, 10001/200, 0⟩]) .unequal =
      .ok [⟨0, 1, 30003/200, 10001/200⟩, ⟨0, 2, 30003/200, 10001/200⟩] ∧
    ¬ |(([(⟨0, 1, 30003/200, 10001/200⟩ : ExpenseSplit),
          ⟨0, 2, 30003/200, 10001/200⟩].map fun s => s.amount)).sum - 300| ≤ 1/100 := by
  constructor
  · simp only [calculate_splits, List.map_cons, List.map_nil, List.sum_cons, List.sum_nil]
    norm_num
    rw [if_neg (by simp), if_neg (by norm_num [abs_of_nonneg])]
  · simp only [List.map_cons, List.map_nil, List.sum_cons, List.sum_nil]
    norm_num
    rw [show |(3:ℚ)/100| = 3/100 from abs_of_nonneg (by norm_num)]
    norm_num

/-- C1, amended. Whenever `calculate_splits` succeeds, the produced split
amounts sum to the expense amount within `0.01 + |amount| / 10000`: the
equal policy is exact, the custom policy is within 0.01, and the unequal
policy is within `|amount| × 0.0001` because an accepted percentage total
may deviate from 100 by up to 0.01. -/
theorem split_sum_within_scaled_tolerance (e : ExpenseInput)
    (sd : Option (List SplitItem)) (st : SplitType) (l : List ExpenseSplit)
    (h : calculate_splits e sd st = .ok l) :
    |((l.map fun s => s.amount)).sum - e.amount| ≤ 1/100 + |e.amount| / 10000 := by
  have hpos : (0:ℚ) ≤ 1/100 + |e.amount| / 10000 := by positivity
  cases st with
  | equal =>
    simp only [calculate_splits] at h
    split at h
    · simp at h
    · rename_i hn
      injection h with h
      subst h
      rw [List.map_map]
      have hmap : ((fun s : ExpenseSplit => s.amount) ∘ fun user_id =>
          ({ expense_id := e.id, user_id := user_id,
             amount := e.amount / e.members.length,
             percentage := 100 / e.members.length } : ExpenseSplit)) =
          fun _ => e.amount / (e.members.length : ℚ) := rfl
      rw [hmap, sum_map_const_rat]
      have hne : (e.members.length : ℚ) ≠ 0 := Nat.cast_ne_zero.2 hn
      rw [mul_div_cancel₀ _ hne]
      simpa using hpos
  | unequal =>
    cases sd with
    | none => simp [calculate_splits] at h
    | some L =>
      simp only [calculate_splits] at h
      split at h
      · simp at h
      · split at h
        · simp at h
        · rename_i hp
          injection h with h
          subst h
          rw [List.map_map]
          have hmap : ((fun s : ExpenseSplit => s.amount) ∘ fun s : SplitItem =>
              ({ expense_id := e.id, user_id := s.user_id,
                 amount := e.amount * s.percentage / 100,
                 percentage := s.percentage } : ExpenseSplit)) =
              fun s : SplitItem => e.amount / 100 * s.percentage := by
            funext s
            show e.amount * s.percentage / 100 = e.amount / 100 * s.percentage
            ring
          rw [hmap, List.sum_map_mul_left]
          have hkey : e.amount / 100 * (L.map fun s => s.percentage).sum - e.amount =
              e.amount / 100 * ((L.map fun s => s.percentage).sum - 100) := by ring
          rw [hkey, abs_mul]
          have h1 : |(L.map fun s => s.percentage).sum - 100| ≤ 1/100 := not_lt.1 hp
          have h2 : |e.amount / 100| = |e.amount| / 100 := by
            rw [abs_div]
            norm_num
          calc |e.amount / 100| * |(L.map fun s => s.percentage).sum - 100|
              ≤ |e.amount / 100| * (1/100) :=
                mul_le_mul_of_nonneg_left h1 (abs_nonneg _)
            _ = |e.amount| / 10000 := by rw [h2]; ring
            _ ≤ 1/100 + |e.amount| / 10000 := by
                have h3 : (0:ℚ) ≤ 1/100 := by norm_num
                linarith
  | custom =>
    cases sd with
    | none => simp [calculate_splits] at h
    | some L =>
      simp only [calculate_splits] at h
      split at h
      · simp at h
      · split at h
        · simp at h
        · split at h
          · simp at h
          · rename_i ha hz
            injection h with h
            subst h
            rw [List.map_map]
            have hmap : ((fun s : ExpenseSplit => s.amount) ∘ fun s : SplitItem =>
                ({ expense_id := e.id, user_id := s.user_id,
                   amount := s.amount,
                   percentage := s.amount / e.amount * 100 } : ExpenseSplit)) =
                fun s : SplitItem => s.amount := rfl
            rw [hmap]
            have h1 : |(L.map fun s => s.amount).sum - e.amount| ≤ 1/100 := not_lt.1 ha
            have h2 : (0:ℚ) ≤ |e.amount| / 10000 := by positivity
            linarith

/-- C1, witness: an equal split of 100 over two members succeeds and its
split amounts sum to 100, within the scaled tolerance. -/
theorem split_sum_within_scaled_tolerance_witness :
    |(([(⟨0, 1, 50, 50⟩ : ExpenseSplit), ⟨0, 2, 50, 50⟩].map fun s => s.amount)).sum -
      (100 : ℚ)| ≤ 1/100 + |(100 : ℚ)| / 10000 :=
  split_sum_within_scaled_tolerance ⟨0, 100, [1, 2]⟩ none .equal
    [⟨0, 1, 50, 50⟩, ⟨0, 2, 50, 50⟩] (by with_unfolding_all decide)

/-- C8, counterexample. The claim asserts an equal split over an empty
member list fails with the same InvalidSplitError kind as the split-input
errors; in the code `total_amount / len(member_ids)` raises a
`ZeroDivisionError` instead, a different kind. -/
theorem equal_split_empty_members_counterexample :
    calculate_splits ⟨0, 100, []⟩ none .equal = .error .divisionByZero ∧
    isInvalidSplit (calculate_splits ⟨0, 100, []⟩ none .equal) = false := by
  with_unfolding_all decide

/-- C8, amended: an equal split over an empty member list fails with the
division-by-zero error kind (the Python `ZeroDivisionError` raised by the
unguarded division by the member count), not with the InvalidSplitError
kind; this holds for every expense amount and any split payload. -/
theorem equal_split_empty_members_division_error (i : ℕ) (a : ℚ)
    (sd : Option (List SplitItem)) :
    calculate_splits ⟨i, a, []⟩ sd .equal = .error .divisionByZero := by
  simp [calculate_splits]

/-- C7, counterexample. The claim asserts that for unequal/custom input
satisfying the stated preconditions the calculator returns the split list
without error. For a custom split of a zero-amount expense with amounts
summing to 0.005 (within 0.01 of the total, data present and nonempty) the
back-computed percentage `(amount / total_amount) * 100` divides by zero,
so the call fails, and with a kind that is not InvalidSplitError. -/
theorem invalid_split_iff_counterexample :
    calculate_splits ⟨0, 0, []⟩ (some [⟨1, 0, 1/200⟩]) .custom = .error .divisionByZero ∧
    |((([⟨1, 0, 1/200⟩] : List SplitItem).map fun s => s.amount)).sum - (0 : ℚ)| ≤ 1/100 ∧
    isInvalidSplit (calculate_splits ⟨0, 0, []⟩ (some [⟨1, 0, 1/200⟩]) .custom) = false := by
  with_unfolding_all decide

/-- C7, amended. For the unequal and custom policies, `calculate_splits`
fails with the InvalidSplitError kind exactly when the split input is
missing or empty (Python `if not split_data`), or the policy is unequal and
the percentage total deviates from 100 by more than 0.01, or the policy is
custom and the amount total deviates from the expense amount by more than
0.01; and when none of those hold it returns the split list without error,
provided additionally (for the custom policy) that the expense amount is
not zero — at amount zero the percentage back-computation divides by zero
instead of succeeding. -/
theorem invalid_split_error_iff (e : ExpenseInput) (sd : Option (List SplitItem))
    (st : SplitType) (hst : st = SplitType.unequal ∨ st = SplitType.custom) :
    ((∃ m, calculate_splits e sd st = .error (.invalidSplit m)) ↔
      (sd.getD [] = []
        ∨ (st = SplitType.unequal ∧
            1/100 < |((sd.getD []).map fun s => s.percentage).sum - 100|)
        ∨ (st = SplitType.custom ∧
            1/100 < |((sd.getD []).map fun s => s.amount).sum - e.amount|)))
    ∧ ((sd.getD [] ≠ [] ∧
        ¬(st = SplitType.unequal ∧
            1/100 < |((sd.getD []).map fun s => s.percentage).sum - 100|) ∧
        ¬(st = SplitType.custom ∧
            1/100 < |((sd.getD []).map fun s => s.amount).sum - e.amount|)) →
       (st = SplitType.custom → e.amount ≠ 0) →
       ∃ l, calculate_splits e sd st = .ok l) := by
  rcases hst with hst | hst <;> subst hst
  · cases sd with
    | none =>
      constructor
      · exact iff_of_true ⟨_, rfl⟩ (Or.inl rfl)
      · rintro ⟨h1, -, -⟩
        simp at h1
    | some L =>
      by_cases hL : L = []
      · subst hL
        constructor
        · exact iff_of_true ⟨_, rfl⟩ (Or.inl rfl)
        · rintro ⟨h1, -, -⟩
          simp at h1
      · by_cases hp : 1/100 < |(L.map fun s => s.percentage).sum - 100|
        · constructor
          · refine iff_of_true ⟨"Percentages must add up to 100", ?_⟩
              (Or.inr (Or.inl ⟨rfl, hp⟩))
            simp only [calculate_splits, if_neg hL, if_pos hp]
          · rintro ⟨-, h2, -⟩
            exact absurd ⟨rfl, hp⟩ h2
        · constructor
          · refine iff_of_false ?_ ?_
            · rintro ⟨m, hm⟩
              rw [show calculate_splits e (some L) .unequal = .ok (L.map fun s =>
                  ({ expense_id := e.id, user_id := s.user_id,
                     amount := e.amount * s.percentage / 100,
                     percentage := s.percentage } : ExpenseSplit)) from by
                simp only [calculate_splits, if_neg hL, if_neg hp]] at hm
              exact Except.noConfusion hm
            · rintro (h | ⟨-, h⟩ | ⟨h, -⟩)
              · exact hL h
              · exact hp h
              · exact SplitType.noConfusion h
          · intro _ _
            refine ⟨L.map fun s =>
              ({ expense_id := e.id, user_id := s.user_id,
                 amount := e.amount * s.percentage / 100,
                 percentage := s.percentage } : ExpenseSplit), ?_⟩
            simp only [calculate_splits, if_neg hL, if_neg hp]
  · cases sd with
    | none =>
      constructor
      · exact iff_of_true ⟨_, rfl⟩ (Or.inl rfl)
      · rintro ⟨h1, -, -⟩
        simp at h1
    | some L =>
      by_cases hL : L = []
      · subst hL
        constructor
        · exact iff_of_true ⟨_, rfl⟩ (Or.inl rfl)
        · rintro ⟨h1, -, -⟩
          simp at h1
      · by_cases ha : 1/100 < |(L.map fun s => s.amount).sum - e.amount|
        · constructor
          · refine iff_of_true ⟨"Split amounts must equal total expense amount", ?_⟩
              (Or.inr (Or.inr ⟨rfl, ha⟩))
            simp only [calculate_splits, if_neg hL, if_pos ha]
          · rintro ⟨-, -, h3⟩
            exact absurd ⟨rfl, ha⟩ h3
        · by_cases hz : e.amount = 0
          · constructor
            · refine iff_of_false ?_ ?_
              · rintro ⟨m, hm⟩
                rw [show calculate_splits e (some L) .custom =
                    .error .divisionByZero from by
                  simp only [calculate_splits, if_neg hL, if_neg ha, if_pos hz]] at hm
                injection hm with hm
                exact SplitError.noConfusion hm
              · rintro (h | ⟨h, -⟩ | ⟨-, h⟩)
                · exact hL h
                · exact SplitType.noConfusion h
                · exact ha h
            · intro _ hcz
              exact absurd hz (hcz rfl)
          · constructor
            · refine iff_of_false ?_ ?_
              · rintro ⟨m, hm⟩
                rw [show calculate_splits e (some L) .custom = .ok (L.map fun s =>
                    ({ expense_id := e.id, user_id := s.user_id,
                       amount := s.amount,
                       percentage := s.amount / e.amount * 100 } : ExpenseSplit)) from by
                  simp only [calculate_splits, if_neg hL, if_neg ha, if_neg hz]] at hm
                exact Except.noConfusion hm
              · rintro (h | ⟨h, -⟩ | ⟨-, h⟩)
                · exact hL h
                · exact SplitType.noConfusion h
                · exact ha h
            · intro _ _
              refine ⟨L.map fun s =>
                ({ expense_id := e.id, user_id := s.user_id,
                   amount := s.amount,
                   percentage := s.amount / e.amount * 100 } : ExpenseSplit), ?_⟩
              simp only [calculate_splits, if_neg hL, if_neg ha, if_neg hz]

/-- C7, witness: an unequal split of 50 over percentages 100 has no
InvalidSplitError (no condition of the iff holds) and succeeds. -/
theorem invalid_split_error_iff_witness :
    ((∃ m, calculate_splits ⟨0, 50, []⟩ (some [⟨1, 100, 0⟩]) .unequal =
        .error (.invalidSplit m)) ↔
      ((some [(⟨1, 100, 0⟩ : SplitItem)]).getD [] = []
        ∨ (SplitType.unequal = SplitType.unequal ∧
            1/100 < |(((some [(⟨1, 100, 0⟩ : SplitItem)]).getD []).map
              fun s => s.percentage).sum - 100|)
        ∨ (SplitType.unequal = SplitType.custom ∧
            1/100 < |(((some [(⟨1, 100, 0⟩ : SplitItem)]).getD []).map
              fun s => s.amount).sum - (⟨0, 50, []⟩ : ExpenseInput).amount|)))
    ∧ ((((some [(⟨1, 100, 0⟩ : SplitItem)]).getD []) ≠ [] ∧
        ¬(SplitType.unequal = SplitType.unequal ∧
            1/100 < |(((some [(⟨1, 100, 0⟩ : SplitItem)]).getD []).map
              fun s => s.percentage).sum - 100|) ∧
        ¬(SplitType.unequal = SplitType.custom ∧
            1/100 < |(((some [(⟨1, 100, 0⟩ : SplitItem)]).getD []).map
              fun s => s.amount).sum - (⟨0, 50, []⟩ : ExpenseInput).amount|)) →
       (SplitType.unequal = SplitType.custom → (⟨0, 50, []⟩ : ExpenseInput).amount ≠ 0) →
       ∃ l, calculate_splits ⟨0, 50, []⟩ (some [⟨1, 100, 0⟩]) .unequal = .ok l) :=
  invalid_split_error_iff ⟨0, 50, []⟩ (some [⟨1, 100, 0⟩]) .unequal (Or.inl rfl)

lemma entrySum_nil (u : ℕ) : entrySum [] u = 0 := rfl

lemma entrySum_cons (ev : ℕ × ℚ) (evs : List (ℕ × ℚ)) (u : ℕ) :
    entrySum (ev :: evs) u = (if ev.1 = u then ev.2 else 0) + entrySum evs u := by
  by_cases h : ev.1 = u <;> simp [entrySum, h]

lemma entrySum_append (l1 l2 : List (ℕ × ℚ)) (u : ℕ) :
    entrySum (l1 ++ l2) u = entrySum l1 u + entrySum l2 u := by
  simp [entrySum]

lemma entrySum_eq_zero_of_not_mem {evs : List (ℕ × ℚ)} {u : ℕ}
    (h : u ∉ evs.map Prod.fst) : entrySum evs u = 0 := by
  induction evs with
  | nil => rfl
  | cons ev t ih =>
    simp only [List.map_cons, List.mem_cons, not_or] at h
    rw [entrySum_cons, if_neg (fun hh => h.1 hh.symm), ih h.2, add_zero]

lemma dictAdd_keys_mem (d : List (ℕ × ℚ)) (u w : ℕ) (v : ℚ) :
    w ∈ (dictAdd d u v).map Prod.fst ↔ w ∈ d.map Prod.fst ∨ w = u := by
  unfold dictAdd
  split
  · rename_i hmem
    rw [List.map_map]
    have hfix : (Prod.fst ∘ fun e : ℕ × ℚ => if e.1 = u then (e.1, e.2 + v) else e) =
        Prod.fst := by
      funext e
      by_cases h : e.1 = u <;> simp [h]
    rw [hfix]
    constructor
    · exact Or.inl
    · rintro (h | h)
      · exact h
      · exact h ▸ hmem
  · simp [or_comm]

lemma dictAdd_nodup_keys {d : List (ℕ × ℚ)} (u : ℕ) (v : ℚ)
    (hn : (d.map Prod.fst).Nodup) : ((dictAdd d u v).map Prod.fst).Nodup := by
  unfold dictAdd
  split
  · rw [List.map_map]
    have hfix : (Prod.fst ∘ fun e : ℕ × ℚ => if e.1 = u then (e.1, e.2 + v) else e) =
        Prod.fst := by
      funext e
      by_cases h : e.1 = u <;> simp [h]
    rw [hfix]
    exact hn
  · rename_i hmem
    rw [List.map_append]
    simp only [List.map_cons, List.map_nil]
    rw [List.nodup_append]
    refine ⟨hn, List.nodup_singleton u, ?_⟩
    intro w hw hwu
    rw [List.mem_singleton] at hwu
    subst hwu
    exact hmem hw

lemma entrySum_dictAdd {d : List (ℕ × ℚ)} (u w : ℕ) (v : ℚ)
    (hn : (d.map Prod.fst).Nodup) :
    entrySum (dictAdd d u v) w = entrySum d w + (if u = w then v else 0) := by
  unfold dictAdd
  split
  · rename_i hmem
    induction d with
    | nil => simp at hmem
    | cons a t ih =>
      simp only [List.map_cons, List.nodup_cons] at hn
      simp only [List.map_cons, List.mem_cons] at hmem
      by_cases hau : a.1 = u
      · subst hau
        have htfix : t.map (fun e : ℕ × ℚ => if e.1 = a.1 then (e.1, e.2 + v) else e) = t := by
          conv_rhs => rw [← List.map_id t]
          apply List.map_congr_left
          intro e he
          have hne : e.1 ≠ a.1 := fun hh => hn.1 (hh ▸ List.mem_map_of_mem Prod.fst he)
          simp [hne]
        rw [List.map_cons, htfix, if_pos rfl]
        rw [entrySum_cons, entrySum_cons]
        by_cases hw : a.1 = w
        · rw [if_pos hw, if_pos hw, if_pos hw]
          ring
        · rw [if_neg hw, if_neg hw, if_neg hw]
          ring
      · have hmem' : u ∈ t.map Prod.fst := by
          rcases hmem with h | h
          · exact absurd h.symm hau
          · exact h
        rw [List.map_cons, if_neg hau]
        rw [entrySum_cons, entrySum_cons, ih hn.2 hmem']
        ring
  · rw [entrySum_append, entrySum_cons, entrySum_nil, add_zero]

lemma valuesSum_dictAdd {d : List (ℕ × ℚ)} (u : ℕ) (v : ℚ)
    (hn : (d.map Prod.fst).Nodup) :
    ((dictAdd d u v).map fun ent => ent.2).sum = ((d.map fun ent => ent.2).sum) + v := by
  unfold dictAdd
  split
  · rename_i hmem
    induction d with
    | nil => simp at hmem
    | cons a t ih =>
      simp only [List.map_cons, List.nodup_cons] at hn
      simp only [List.map_cons, List.mem_cons] at hmem
      by_cases hau : a.1 = u
      · subst hau
        have htfix : t.map (fun e : ℕ × ℚ => if e.1 = a.1 then (e.1, e.2 + v) else e) = t := by
          conv_rhs => rw [← List.map_id t]
          apply List.map_congr_left
          intro e he
          have hne : e.1 ≠ a.1 := fun hh => hn.1 (hh ▸ List.mem_map_of_mem Prod.fst he)
          simp [hne]
        rw [List.map_cons, htfix, if_pos rfl]
        simp only [List.map_cons, List.sum_cons]
        ring
      · have hmem' : u ∈ t.map Prod.fst := by
          rcases hmem with h | h
          · exact absurd h.symm hau
          · exact h
        rw [List.map_cons, if_neg hau]
        simp only [List.map_cons, List.sum_cons]
        rw [ih hn.2 hmem']
        ring
  · simp

lemma mem_dict_value {d : List (ℕ × ℚ)} {u : ℕ} {x : ℚ}
    (hn : (d.map Prod.fst).Nodup) (h : (u, x) ∈ d) : x = entrySum d u := by
  induction d with
  | nil => simp at h
  | cons a t ih =>
    simp only [List.map_cons, List.nodup_cons] at hn
    rcases List.mem_cons.1 h with h | h
    · subst h
      rw [entrySum_cons, if_pos rfl,
        entrySum_eq_zero_of_not_mem (by simpa using hn.1), add_zero]
    · have hau : a.1 ≠ u := fun hh => hn.1 (hh ▸ List.mem_map_of_mem Prod.fst h)
      rw [entrySum_cons, if_neg hau, ih hn.2 h, zero_add]

lemma mem_dict_iff {d : List (ℕ × ℚ)} (u : ℕ) (x : ℚ)
    (hn : (d.map Prod.fst).Nodup) :
    (u, x) ∈ d ↔ (u ∈ d.map Prod.fst ∧ x = entrySum d u) := by
  constructor
  · intro h
    exact ⟨List.mem_map_of_mem Prod.fst h, mem_dict_value hn h⟩
  · rintro ⟨hu, rfl⟩
    rcases List.mem_map.1 hu with ⟨⟨u', y⟩, hy, he⟩
    cases he
    rw [← mem_dict_value hn hy]
    exact hy

lemma foldl_dictAdd_nodup (evs : List (ℕ × ℚ)) (d : List (ℕ × ℚ))
    (hn : (d.map Prod.fst).Nodup) :
    ((evs.foldl (fun d e => dictAdd d e.1 e.2) d).map Prod.fst).Nodup := by
  induction evs generalizing d with
  | nil => exact hn
  | cons ev t ih => exact ih _ (dictAdd_nodup_keys _ _ hn)

lemma foldl_dictAdd_entrySum (evs : List (ℕ × ℚ)) (d : List (ℕ × ℚ))
    (hn : (d.map Prod.fst).Nodup) (w : ℕ) :
    entrySum (evs.foldl (fun d e => dictAdd d e.1 e.2) d) w =
      entrySum d w + entrySum evs w := by
  induction evs generalizing d with
  | nil => rw [List.foldl_nil, entrySum_nil, add_zero]
  | cons ev t ih =>
    rw [List.foldl_cons, ih _ (dictAdd_nodup_keys _ _ hn),
      entrySum_dictAdd _ _ _ hn, entrySum_cons]
    ring

lemma foldl_dictAdd_valuesSum (evs : List (ℕ × ℚ)) (d : List (ℕ × ℚ))
    (hn : (d.map Prod.fst).Nodup) :
    ((evs.foldl (fun d e => dictAdd d e.1 e.2) d).map fun ent => ent.2).sum =
      ((d.map fun ent => ent.2).sum) + ((evs.map fun ent => ent.2).sum) := by
  induction evs generalizing d with
  | nil => simp
  | cons ev t ih =>
    rw [List.foldl_cons, ih _ (dictAdd_nodup_keys _ _ hn),
      valuesSum_dictAdd _ _ hn]
    simp only [List.map_cons, List.sum_cons]
    ring

lemma foldl_dictAdd_keys_mem (evs : List (ℕ × ℚ)) (d : List (ℕ × ℚ)) (w : ℕ) :
    w ∈ (evs.foldl (fun d e => dictAdd d e.1 e.2) d).map Prod.fst ↔
      w ∈ d.map Prod.fst ∨ w ∈ evs.map Prod.fst := by
  induction evs generalizing d with
  | nil => simp
  | cons ev t ih =>
    rw [List.foldl_cons, ih, dictAdd_keys_mem]
    simp only [List.map_cons, List.mem_cons]
    tauto

lemma balancesDict_nodup_keys (g : ℕ) (es : List Expense) (ps : List Payment) :
    ((balancesDict g es ps).map Prod.fst).Nodup :=
  foldl_dictAdd_nodup _ _ (by simp)

lemma balancesDict_entrySum (g : ℕ) (es : List Expense) (ps : List Payment) (w : ℕ) :
    entrySum (balancesDict g es ps) w = entrySum (balanceEvents g es ps) w := by
  unfold balancesDict
  rw [foldl_dictAdd_entrySum _ _ (by simp), entrySum_nil, zero_add]

lemma balancesDict_valuesSum (g : ℕ) (es : List Expense) (ps : List Payment) :
    ((balancesDict g es ps).map fun ent => ent.2).sum =
      ((balanceEvents g es ps).map fun ent => ent.2).sum := by
  unfold balancesDict
  rw [foldl_dictAdd_valuesSum _ _ (by simp)]
  simp

lemma mem_balancesDict_iff (g : ℕ) (es : List Expense) (ps : List Payment)
    (u : ℕ) (x : ℚ) :
    (u, x) ∈ balancesDict g es ps ↔
      (u ∈ (balanceEvents g es ps).map Prod.fst ∧
        x = entrySum (balanceEvents g es ps) u) := by
  rw [mem_dict_iff _ _ (balancesDict_nodup_keys g es ps), balancesDict_entrySum]
  unfold balancesDict
  rw [foldl_dictAdd_keys_mem]
  simp

lemma entrySum_map_neg_splits (splits : List ExpenseSplit) (u : ℕ) :
    entrySum (splits.map fun s => (s.user_id, -s.amount)) u =
      -(((splits.filter fun s => s.user_id = u).map fun s => s.amount).sum) := by
  induction splits with
  | nil => simp [entrySum_nil]
  | cons s t ih =>
    rw [List.map_cons, entrySum_cons, ih, List.filter_cons]
    by_cases h : s.user_id = u
    · simp [h]
      ring
    · simp [h]

lemma entrySum_expense_events (g : ℕ) (es : List Expense) (u : ℕ) :
    entrySum ((es.filter fun e =>
        e.group_id = g ∧ e.status = EStatus.approved).flatMap
      fun e => (e.paid_by_id, e.amount) :: e.splits.map fun s =>
        (s.user_id, -s.amount)) u =
    ((es.filter fun e => (e.group_id = g ∧ e.status = EStatus.approved)
        ∧ e.paid_by_id = u).map fun e => e.amount).sum
    - ((es.filter fun e => e.group_id = g ∧ e.status = EStatus.approved).map
        fun e => ((e.splits.filter fun s => s.user_id = u).map
          fun s => s.amount).sum).sum := by
  induction es with
  | nil => simp [entrySum_nil]
  | cons e t ih =>
    rw [List.filter_cons, List.filter_cons]
    simp only [decide_eq_true_eq]
    by_cases hQ : e.group_id = g ∧ e.status = EStatus.approved
    · rw [if_pos hQ, List.flatMap_cons, entrySum_append, entrySum_cons,
        entrySum_map_neg_splits, ih]
      dsimp only
      by_cases hP : e.paid_by_id = u
      · rw [if_pos (⟨hQ, hP⟩ : (e.group_id = g ∧ e.status = EStatus.approved)
            ∧ e.paid_by_id = u), List.map_cons, List.sum_cons,
          List.map_cons, List.sum_cons, if_pos hP]
        ring
      · rw [if_neg (fun hh : (e.group_id = g ∧ e.status = EStatus.approved)
            ∧ e.paid_by_id = u => hP hh.2), if_neg hP, List.map_cons, List.sum_cons]
        ring
    · rw [if_neg hQ,
        if_neg (fun hh : (e.group_id = g ∧ e.status = EStatus.approved)
          ∧ e.paid_by_id = u => hQ hh.1), ih]

lemma entrySum_payment_events (g : ℕ) (ps : List Payment) (u : ℕ) :
    entrySum ((ps.filter fun p =>
        p.group_id = g ∧ p.status = PStatus.completed).flatMap
      fun p => [(p.payer_id, p.amount), (p.payee_id, -p.amount)]) u =
    ((ps.filter fun p => (p.group_id = g ∧ p.status = PStatus.completed)
        ∧ p.payer_id = u).map fun p => p.amount).sum
    - ((ps.filter fun p => (p.group_id = g ∧ p.status = PStatus.completed)
        ∧ p.payee_id = u).map fun p => p.amount).sum := by
  induction ps with
  | nil => simp [entrySum_nil]
  | cons p t ih =>
    rw [List.filter_cons, List.filter_cons, List.filter_cons]
    simp only [decide_eq_true_eq]
    by_cases hQ : p.group_id = g ∧ p.status = PStatus.completed
    · rw [if_pos hQ, List.flatMap_cons, entrySum_append, entrySum_cons,
        entrySum_cons, entrySum_nil, ih]
      dsimp only
      by_cases hA : p.payer_id = u
      · rw [if_pos (⟨hQ, hA⟩ : (p.group_id = g ∧ p.status = PStatus.completed)
            ∧ p.payer_id = u), List.map_cons, List.sum_cons, if_pos hA]
        by_cases hB : p.payee_id = u
        · rw [if_pos (⟨hQ, hB⟩ : (p.group_id = g ∧ p.status = PStatus.completed)
              ∧ p.payee_id = u), List.map_cons, List.sum_cons, if_pos hB]
          ring
        · rw [if_neg (fun hh : (p.group_id = g ∧ p.status = PStatus.completed)
              ∧ p.payee_id = u => hB hh.2), if_neg hB]
          ring
      · rw [if_neg (fun hh : (p.group_id = g ∧ p.status = PStatus.completed)
            ∧ p.payer_id = u => hA hh.2), if_neg hA]
        by_cases hB : p.payee_id = u
        · rw [if_pos (⟨hQ, hB⟩ : (p.group_id = g ∧ p.status = PStatus.completed)
              ∧ p.payee_id = u), List.map_cons, List.sum_cons, if_pos hB]
          ring
        · rw [if_neg (fun hh : (p.group_id = g ∧ p.status = PStatus.completed)
              ∧ p.payee_id = u => hB hh.2), if_neg hB]
          ring
    · rw [if_neg hQ,
        if_neg (fun hh : (p.group_id = g ∧ p.status = PStatus.completed)
          ∧ p.payer_id = u => hQ hh.1),
        if_neg (fun hh : (p.group_id = g ∧ p.status = PStatus.completed)
          ∧ p.payee_id = u => hQ hh.1), ih]

lemma entrySum_balanceEvents (g : ℕ) (es : List Expense) (ps : List Payment)
    (u : ℕ) :
    entrySum (balanceEvents g es ps) u = specNetBalance g es ps u := by
  unfold balanceEvents specNetBalance
  rw [entrySum_append, entrySum_expense_events, entrySum_payment_events]
  ring

/-- C3. The mapping returned by balance aggregation holds exactly the pairs
(u, v) where v is the claimed four-sum net-balance formula for u and v is
strictly larger than 0.01 in absolute value: approved expenses of the group
paid by u, minus the split shares of u over those expenses, plus completed
payments u made, minus completed payments u received; pending or rejected
expenses and pending or failed payments are filtered out inside the
formula's filters, and the negligibility filter keeps only |v| > 0.01. -/
theorem calculate_balances_spec (g : ℕ) (es : List Expense) (ps : List Payment)
    (u : ℕ) (x : ℚ) :
    (u, x) ∈ calculate_balances g es ps ↔
      (x = specNetBalance g es ps u ∧ 1/100 < |x|) := by
  unfold calculate_balances
  rw [List.mem_filter]
  constructor
  · rintro ⟨hmem, hpred⟩
    have h1 := (mem_balancesDict_iff g es ps u x).1 hmem
    refine ⟨by rw [h1.2, entrySum_balanceEvents], ?_⟩
    simpa using hpred
  · rintro ⟨hx, habs⟩
    have hx' : x = entrySum (balanceEvents g es ps) u := by
      rw [hx, ← entrySum_balanceEvents]
    refine ⟨(mem_balancesDict_iff g es ps u x).2 ⟨?_, hx'⟩, by simpa using habs⟩
    have hxne : x ≠ 0 := by
      intro h0
      rw [h0, abs_zero] at habs
      norm_num at habs
    by_contra hnot
    exact hxne (hx'.trans (entrySum_eq_zero_of_not_mem hnot))

lemma sum_map_flatMap {α β : Type} (l : List α) (f : α → List β) (g : β → ℚ) :
    ((l.flatMap f).map g).sum = (l.map fun x => ((f x).map g).sum).sum := by
  induction l with
  | nil => simp
  | cons a t ih => simp [ih]

lemma sum_map_neg_rat {α : Type} (l : List α) (f : α → ℚ) :
    (l.map fun x => -(f x)).sum = -((l.map f).sum) := by
  induction l with
  | nil => simp
  | cons a t ih =>
    simp only [List.map_cons, List.sum_cons, ih]
    ring

/-- C2, counterexample. The claim asserts the sum over the balances that
survive the negligibility filter is 0 within 0.01. One approved expense of
0.03 paid by user 1 and split in three exact 0.01 shares gives user 1 the
balance +0.03 while users 2, 3, 4 (each at exactly -0.01) are dropped by
the strict `abs(balance) > 0.01` filter, so the surviving sum is 0.03. -/
theorem zero_sum_balance_counterexample :
    ((([(⟨0, 2, 1/100, 0⟩ : ExpenseSplit), ⟨0, 3, 1/100, 0⟩, ⟨0, 4, 1/100, 0⟩].map
        fun s => s.amount)).sum = (3/100 : ℚ)) ∧
    calculate_balances 7
        [⟨7, 3/100, 1, .approved, [⟨0, 2, 1/100, 0⟩, ⟨0, 3, 1/100, 0⟩, ⟨0, 4, 1/100, 0⟩]⟩]
        [] = [(1, 3/100)] ∧
    ¬ |(((calculate_balances 7
        [⟨7, 3/100, 1, .approved, [⟨0, 2, 1/100, 0⟩, ⟨0, 3, 1/100, 0⟩, ⟨0, 4, 1/100, 0⟩]⟩]
        []).map fun ent => ent.2)).sum| ≤ 1/100 := by
  with_unfolding_all decide

/-- C2, amended. When every approved expense of the group has split amounts
summing exactly to its amount, the sum over ALL computed balances — the
balance dict before the negligibility filter — is exactly 0; the filter of
`calculate_balances` can then discard entries of magnitude up to 0.01 each,
so the filtered sum is only guaranteed to be 0 within 0.01 times the number
of dropped users, not within 0.01. -/
theorem balancesDict_zero_sum (g : ℕ) (es : List Expense) (ps : List Payment)
    (hsplit : ∀ e ∈ es, e.group_id = g → e.status = EStatus.approved →
      ((e.splits.map fun s => s.amount)).sum = e.amount) :
    ((balancesDict g es ps).map fun ent => ent.2).sum = 0 := by
  rw [balancesDict_valuesSum]
  unfold balanceEvents
  rw [List.map_append, List.sum_append, sum_map_flatMap, sum_map_flatMap]
  rw [List.sum_eq_zero, List.sum_eq_zero, add_zero]
  · intro x hx
    rcases List.mem_map.1 hx with ⟨p, hp, he⟩
    subst he
    simp only [List.map_cons, List.map_nil, List.sum_cons, List.sum_nil]
    ring
  · intro x hx
    rcases List.mem_map.1 hx with ⟨e, he, hee⟩
    subst hee
    rcases List.mem_filter.1 he with ⟨hes, hcond⟩
    have hc : e.group_id = g ∧ e.status = EStatus.approved := by simpa using hcond
    have hs := hsplit e hes hc.1 hc.2
    simp only [List.map_cons, List.sum_cons, List.map_map]
    have hcomp : ((fun ent : ℕ × ℚ => ent.2) ∘ fun s : ExpenseSplit =>
        (s.user_id, -s.amount)) = fun s : ExpenseSplit => -(s.amount) := rfl
    rw [hcomp, sum_map_neg_rat, hs]
    ring

/-- C2, witness: a group with one approved expense (10, split 4 + 6) and
one completed payment has a balance dict whose values sum to 0. -/
theorem balancesDict_zero_sum_witness :
    ((balancesDict 1 [⟨1, 10, 1, .approved, [⟨0, 1, 4, 0⟩, ⟨0, 2, 6, 0⟩]⟩]
      [⟨1, 2, 1, 3, .completed⟩]).map fun ent => ent.2).sum = 0 :=
  balancesDict_zero_sum 1 _ _ (by with_unfolding_all decide)

lemma settleLoop_length_le (ds cs : List (ℕ × ℚ)) :
    (settleLoop ds cs).length ≤ ds.length + cs.length - 1 := by
  induction ds, cs using settleLoop.induct with
  | case1 cs => simp [settleLoop]
  | case2 d ds => simp [settleLoop]
  | case3 d da ds c ca cs s ih1 ih2 ih3 =>
    have hs : s = min da ca := rfl
    try simp only [hs] at ih1 ih2 ih3
    rw [settleLoop]
    simp only [List.length_cons]
    split
    · split
      · omega
      · simp only [List.length_cons] at ih2
        omega
    · simp only [List.length_cons] at ih3
      omega

lemma settleLoop_sum_le (ds cs : List (ℕ × ℚ))
    (hd : ∀ x ∈ ds, 0 ≤ x.2) (hc : ∀ x ∈ cs, 0 ≤ x.2) :
    ((settleLoop ds cs).map fun t => t.2.2).sum ≤ (ds.map fun x => x.2).sum ∧
    ((settleLoop ds cs).map fun t => t.2.2).sum ≤ (cs.map fun x => x.2).sum := by
  induction ds, cs using settleLoop.induct with
  | case1 cs =>
    constructor
    · simp [settleLoop]
    · simp only [settleLoop, List.map_nil, List.sum_nil]
      exact List.sum_nonneg (by
        intro a ha
        rcases List.mem_map.1 ha with ⟨x, hx, rfl⟩
        exact hc x hx)
  | case2 d ds =>
    constructor
    · simp only [settleLoop, List.map_nil, List.sum_nil]
      exact List.sum_nonneg (by
        intro a ha
        rcases List.mem_map.1 ha with ⟨x, hx, rfl⟩
        exact hd x hx)
    · simp [settleLoop]
  | case3 d da ds c ca cs s ih1 ih2 ih3 =>
    have hs : s = min da ca := rfl
    try simp only [hs] at ih1 ih2 ih3
    have hda : 0 ≤ da := hd (d, da) (List.mem_cons_self _ _)
    have hca : 0 ≤ ca := hc (c, ca) (List.mem_cons_self _ _)
    have hdt : ∀ x ∈ ds, 0 ≤ x.2 := fun x hx => hd x (List.mem_cons_of_mem _ hx)
    have hct : ∀ x ∈ cs, 0 ≤ x.2 := fun x hx => hc x (List.mem_cons_of_mem _ hx)
    have hsd : min da ca ≤ da := min_le_left _ _
    have hsc : min da ca ≤ ca := min_le_right _ _
    rw [settleLoop]
    simp only [List.map_cons, List.sum_cons]
    split
    · split
      · rcases ih1 hdt hct with ⟨h1, h2⟩
        constructor
        · linarith
        · linarith
      · rename_i hcond2
        have hcge : 0 ≤ ca - min da ca := by linarith
        rcases ih2 hdt (by
          intro x hx
          rcases List.mem_cons.1 hx with h | h
          · rw [h]
            exact hcge
          · exact hct x h) with ⟨h1, h2⟩
        simp only [List.map_cons, List.sum_cons] at h2
        constructor
        · linarith
        · linarith
    · rename_i hcond1
      have hdge : 0 ≤ da - min da ca := by linarith [min_le_left da ca]
      rcases ih3 (by
        intro x hx
        rcases List.mem_cons.1 hx with h | h
        · rw [h]
          exact hdge
        · exact hdt x h) hct with ⟨h1, h2⟩
      simp only [List.map_cons, List.sum_cons] at h1
      constructor
      · linarith
      · linarith

lemma settleLoop_leftover (ds cs : List (ℕ × ℚ)) :
    (ds.map fun x => x.2).sum - ((settleLoop ds cs).map fun t => t.2.2).sum ≤
        (ds.length : ℚ) * (1/100) ∨
    (cs.map fun x => x.2).sum - ((settleLoop ds cs).map fun t => t.2.2).sum ≤
        (cs.length : ℚ) * (1/100) := by
  induction ds, cs using settleLoop.induct with
  | case1 cs =>
    left
    simp [settleLoop]
  | case2 d ds =>
    right
    simp [settleLoop]
  | case3 d da ds c ca cs s ih1 ih2 ih3 =>
    have hs : s = min da ca := rfl
    try simp only [hs] at ih1 ih2 ih3
    rw [settleLoop]
    simp only [List.map_cons, List.sum_cons, List.length_cons]
    split
    · split
      · rename_i hcond1 hcond2
        rcases ih1 with h | h
        · left
          push_cast
          linarith
        · right
          push_cast
          linarith
      · rename_i hcond1 hcond2
        rcases ih2 with h | h
        · left
          push_cast
          linarith
        · right
          simp only [List.map_cons, List.sum_cons, List.length_cons] at h
          push_cast at h ⊢
          linarith
    · rename_i hcond1
      have hcond2 : ca - min da ca < 1/100 := by
        rcases le_total da ca with hle | hle
        · rw [min_eq_left hle] at hcond1
          exact absurd (by norm_num : da - da < (1:ℚ)/100) hcond1
        · rw [min_eq_right hle]
          norm_num
      rcases ih3 with h | h
      · left
        simp only [List.map_cons, List.sum_cons, List.length_cons] at h
        push_cast at h ⊢
        linarith
      · right
        push_cast
        linarith

lemma settleLoop_mem (ds cs : List (ℕ × ℚ)) (p q : ℕ) (a : ℚ)
    (hmem : (p, q, a) ∈ settleLoop ds cs) :
    p ∈ ds.map Prod.fst ∧ q ∈ cs.map Prod.fst := by
  induction ds, cs using settleLoop.induct with
  | case1 cs => simp [settleLoop] at hmem
  | case2 d ds => simp [settleLoop] at hmem
  | case3 d da ds c ca cs s ih1 ih2 ih3 =>
    have hs : s = min da ca := rfl
    try simp only [hs] at ih1 ih2 ih3
    rw [settleLoop] at hmem
    simp only [List.map_cons, List.mem_cons]
    rcases List.mem_cons.1 hmem with h | h
    · injection h with h1 h2
      injection h2 with h2 h3
      exact ⟨Or.inl h1, Or.inl h2⟩
    · revert h
      split
      · split
        · intro h
          rcases ih1 h with ⟨h1, h2⟩
          exact ⟨Or.inr h1, Or.inr h2⟩
        · intro h
          rcases ih2 h with ⟨h1, h2⟩
          simp only [List.map_cons, List.mem_cons] at h2
          exact ⟨Or.inr h1, h2⟩
      · intro h
        rcases ih3 h with ⟨h1, h2⟩
        simp only [List.map_cons, List.mem_cons] at h1
        exact ⟨h1, Or.inr h2⟩

lemma settleLoop_amount_ge (ds cs : List (ℕ × ℚ))
    (hd : ∀ x ∈ ds, 1/100 ≤ x.2) (hc : ∀ x ∈ cs, 1/100 ≤ x.2)
    (p q : ℕ) (a : ℚ) (hmem : (p, q, a) ∈ settleLoop ds cs) :
    1/100 ≤ a := by
  induction ds, cs using settleLoop.induct with
  | case1 cs => simp [settleLoop] at hmem
  | case2 d ds => simp [settleLoop] at hmem
  | case3 d da ds c ca cs s ih1 ih2 ih3 =>
    have hs : s = min da ca := rfl
    try simp only [hs] at ih1 ih2 ih3
    have hda : 1/100 ≤ da := hd (d, da) (List.mem_cons_self _ _)
    have hca : 1/100 ≤ ca := hc (c, ca) (List.mem_cons_self _ _)
    have hdt : ∀ x ∈ ds, 1/100 ≤ x.2 := fun x hx => hd x (List.mem_cons_of_mem _ hx)
    have hct : ∀ x ∈ cs, 1/100 ≤ x.2 := fun x hx => hc x (List.mem_cons_of_mem _ hx)
    rw [settleLoop] at hmem
    rcases List.mem_cons.1 hmem with h | h
    · injection h with h1 h2
      injection h2 with h2 h3
      rw [h3]
      exact le_min hda hca
    · revert h
      split
      · split
        · exact ih1 hdt hct
        · rename_i hcond1 hcond2
          refine ih2 hdt ?_
          intro x hx
          rcases List.mem_cons.1 hx with h | h
          · rw [h]
            exact le_of_not_lt hcond2
          · exact hct x h
      · rename_i hcond1
        refine ih3 ?_ hct
        intro x hx
        rcases List.mem_cons.1 hx with h | h
        · rw [h]
          exact le_of_not_lt hcond1
        · exact hdt x h

lemma specWalk_eq_settleLoop (fuel : ℕ) (ds cs : List (ℕ × ℚ))
    (hfuel : ds.length + cs.length ≤ fuel) :
    specWalk fuel ds cs = settleLoop ds cs := by
  induction fuel generalizing ds cs with
  | zero =>
    have h1 : ds = [] := List.length_eq_zero.1 (by omega)
    subst h1
    rw [specWalk, settleLoop]
  | succ n ih =>
    match ds, cs with
    | [], cs => rw [specWalk, settleLoop]
    | d :: ds, [] => rw [specWalk, settleLoop]
    | (d, da) :: ds, (c, ca) :: cs =>
      rw [specWalk, settleLoop]
      simp only [List.length_cons] at hfuel
      congr 1
      by_cases hcond1 : da - min da ca < 1/100
      · rw [if_pos hcond1, if_pos hcond1]
        by_cases hcond2 : ca - min da ca < 1/100
        · rw [if_pos hcond2, if_pos hcond2]
          exact ih ds cs (by omega)
        · rw [if_neg hcond2, if_neg hcond2]
          exact ih ds ((c, ca - min da ca) :: cs) (by simp only [List.length_cons]; omega)
      · have hcond2 : ca - min da ca < 1/100 := by
          rcases le_total da ca with hle | hle
          · exact absurd (by rw [min_eq_left hle]; norm_num) hcond1
          · rw [min_eq_right hle]
            norm_num
        rw [if_neg hcond1, if_neg hcond1, if_pos hcond2]
        exact ih ((d, da - min da ca) :: ds) cs (by simp only [List.length_cons]; omega)

lemma sortDesc_perm (l : List (ℕ × ℚ)) : (sortDesc l).Perm l :=
  List.mergeSort_perm l _

lemma sortDesc_length (l : List (ℕ × ℚ)) : (sortDesc l).length = l.length :=
  (sortDesc_perm l).length_eq

lemma sortDesc_mem_fst (l : List (ℕ × ℚ)) (w : ℕ) :
    w ∈ (sortDesc l).map Prod.fst ↔ w ∈ l.map Prod.fst :=
  ((sortDesc_perm l).map Prod.fst).mem_iff

lemma sortDesc_snd_sum (l : List (ℕ × ℚ)) :
    ((sortDesc l).map fun x => x.2).sum = (l.map fun x => x.2).sum :=
  ((sortDesc_perm l).map fun x => x.2).sum_eq

lemma sortDesc_forall (l : List (ℕ × ℚ)) (p : ℕ × ℚ → Prop) :
    (∀ x ∈ sortDesc l, p x) ↔ ∀ x ∈ l, p x := by
  constructor
  · intro h x hx
    exact h x ((sortDesc_perm l).mem_iff.2 hx)
  · intro h x hx
    exact h x ((sortDesc_perm l).mem_iff.1 hx)

lemma debtors_creditors_count (b : List (ℕ × ℚ)) :
    (debtorsOf b).length + (creditorsOf b).length =
      (b.filter fun e => e.2 ≠ 0).length := by
  induction b with
  | nil => simp [debtorsOf, creditorsOf]
  | cons e t ih =>
    unfold debtorsOf creditorsOf at ih ⊢
    rw [List.filter_cons, List.filter_cons, List.filter_cons]
    simp only [decide_eq_true_eq]
    rw [List.length_map] at ih ⊢
    rcases lt_trichotomy e.2 0 with h | h | h
    · rw [if_pos h, if_neg (by linarith), if_pos (ne_of_lt h)]
      simp only [List.length_cons]
      omega
    · rw [if_neg (by rw [h]; norm_num), if_neg (by rw [h]; norm_num),
        if_neg (by simp [h])]
      omega
    · rw [if_neg (by linarith), if_pos h, if_pos (ne_of_gt h)]
      simp only [List.length_cons]
      omega

lemma balance_sum_split (b : List (ℕ × ℚ)) :
    (b.map fun x => x.2).sum =
      ((creditorsOf b).map fun x => x.2).sum -
      ((debtorsOf b).map fun x => x.2).sum := by
  induction b with
  | nil => simp [debtorsOf, creditorsOf]
  | cons e t ih =>
    unfold debtorsOf creditorsOf at ih ⊢
    rw [List.map_cons, List.sum_cons, List.filter_cons, List.filter_cons]
    simp only [decide_eq_true_eq]
    rcases lt_trichotomy e.2 0 with h | h | h
    · rw [if_pos h, if_neg (by linarith)]
      simp only [List.map_cons, List.sum_cons]
      rw [abs_of_neg h]
      linarith
    · rw [if_neg (by rw [h]; norm_num), if_neg (by rw [h]; norm_num), h]
      linarith
    · rw [if_pos h, if_neg (show ¬ e.2 < 0 by linarith)]
      simp only [List.map_cons, List.sum_cons]
      linarith

lemma debtorsOf_nonneg (b : List (ℕ × ℚ)) : ∀ x ∈ debtorsOf b, 0 ≤ x.2 := by
  intro x hx
  unfold debtorsOf at hx
  rcases List.mem_map.1 hx with ⟨e, -, rfl⟩
  exact abs_nonneg _

lemma creditorsOf_nonneg (b : List (ℕ × ℚ)) : ∀ x ∈ creditorsOf b, 0 ≤ x.2 := by
  intro x hx
  unfold creditorsOf at hx
  have := List.mem_filter.1 hx
  have hpos : 0 < x.2 := by simpa using this.2
  linarith

lemma sortDesc_sorted (l : List (ℕ × ℚ)) :
    (sortDesc l).Pairwise fun x y => y.2 ≤ x.2 := by
  have h := @List.sorted_mergeSort (ℕ × ℚ) (fun a b => decide (b.2 ≤ a.2))
    (fun a b c => by
      simp only [decide_eq_true_eq]
      intro h1 h2
      linarith)
    (fun a b => by
      simp only [Bool.or_eq_true, decide_eq_true_eq]
      exact le_total b.2 a.2) l
  exact h.imp fun hab => by simpa using hab

/-- C5. The output of `optimize_settlements` is exactly the emission
sequence described by the spec: partition into debtors (by owed magnitude)
and creditors, sort each descending by amount with a stable sort, then walk
both lists with two cursors, at each step emitting the minimum of the two
remaining amounts and advancing each cursor whose remaining amount drops
below 0.01 — here formalized by the independently-written fuelled walk
`specWalk` (fuel = number of debtors + creditors), proven equal to the
source's loop for every input balance mapping; the two sorted lists are
indeed descending in amount (the stable tie-break is the sort function's). -/
theorem optimize_settlements_spec (b : List (ℕ × ℚ)) :
    spec_optimize_settlements b = optimize_settlements b ∧
    ((sortDesc (debtorsOf b)).Pairwise fun x y => y.2 ≤ x.2) ∧
    ((sortDesc (creditorsOf b)).Pairwise fun x y => y.2 ≤ x.2) := by
  refine ⟨?_, sortDesc_sorted _, sortDesc_sorted _⟩
  unfold spec_optimize_settlements optimize_settlements
  exact specWalk_eq_settleLoop _ _ _ le_rfl

/-- C9. The matching loop of `optimize_settlements` completes within
`d + c` iterations (one per cursor advancement): for any fuel of at least
the total number of debtors and creditors, the fuelled walk has already
reached the loop's final answer, so the engine is a total function of its
input. -/
theorem optimize_settlements_terminates (b : List (ℕ × ℚ)) (fuel : ℕ)
    (hfuel : (sortDesc (debtorsOf b)).length + (sortDesc (creditorsOf b)).length ≤ fuel) :
    specWalk fuel (sortDesc (debtorsOf b)) (sortDesc (creditorsOf b)) =
      optimize_settlements b := by
  unfold optimize_settlements
  exact specWalk_eq_settleLoop fuel _ _ hfuel

/-- C9, witness: with two nonzero balances the walk with fuel 2 (or more)
equals the loop's output. -/
theorem optimize_settlements_terminates_witness :
    specWalk 2 (sortDesc (debtorsOf [(1, (-5 : ℚ)), (2, 5)]))
        (sortDesc (creditorsOf [(1, (-5 : ℚ)), (2, 5)])) =
      optimize_settlements [(1, (-5 : ℚ)), (2, 5)] :=
  optimize_settlements_terminates [(1, (-5 : ℚ)), (2, 5)] 2
    (by with_unfolding_all decide)

/-- C6. For a balance mapping with `n` entries of non-zero balance, the
greedy matching emits at most `n - 1` suggestions: each iteration advances
at least one cursor and the loop stops when either side is exhausted. -/
theorem optimize_settlements_card_bound (b : List (ℕ × ℚ)) :
    (optimize_settlements b).length ≤ (b.filter fun e => e.2 ≠ 0).length - 1 := by
  unfold optimize_settlements
  have h1 := settleLoop_length_le (sortDesc (debtorsOf b)) (sortDesc (creditorsOf b))
  rw [sortDesc_length, sortDesc_length] at h1
  rw [← debtors_creditors_count]
  exact h1

/-- C4, counterexample. The claim asserts the suggestion amounts sum to
exactly the sum of positive balances whenever the balances sum to zero.
For balances {1: -1.005, 2: +1, 3: +0.005} (sum 0) the loop emits a single
suggestion of 1, then both cursors advance because the sub-cent remainders
0.005 fall below 0.01, leaving 0.005 of positive balance unsettled: the
amounts sum to 1 while the positive balances sum to 1.005. -/
theorem settlement_completeness_counterexample :
    (([((1 : ℕ), (-201/200 : ℚ)), (2, 1), (3, 1/200)].map fun x => x.2).sum = 0) ∧
    optimize_settlements [(1, -201/200), (2, 1), (3, 1/200)] = [(1, 2, 1)] ∧
    ¬ (((optimize_settlements [(1, -201/200), (2, 1), (3, 1/200)]).map
          fun t => t.2.2).sum =
        ((creditorsOf [(1, -201/200), (2, 1), (3, 1/200)]).map fun x => x.2).sum) := by
  with_unfolding_all decide

/-- C4, amended. For every balance mapping summing to zero, the suggestion
amounts sum to at most the sum of positive balances, and fall short of it
by at most 0.01 times the larger of the debtor and creditor counts (each
cursor advancement may strand a remainder below 0.01). -/
theorem settlement_sum_bounds (b : List (ℕ × ℚ))
    (hzero : (b.map fun x => x.2).sum = 0) :
    ((optimize_settlements b).map fun t => t.2.2).sum ≤
        ((creditorsOf b).map fun x => x.2).sum ∧
    ((creditorsOf b).map fun x => x.2).sum -
        ((optimize_settlements b).map fun t => t.2.2).sum ≤
      (1/100) * (max (debtorsOf b).length (creditorsOf b).length : ℚ) := by
  have hd : ∀ x ∈ sortDesc (debtorsOf b), 0 ≤ x.2 :=
    (sortDesc_forall _ _).2 (debtorsOf_nonneg b)
  have hc : ∀ x ∈ sortDesc (creditorsOf b), 0 ≤ x.2 :=
    (sortDesc_forall _ _).2 (creditorsOf_nonneg b)
  have hsum := settleLoop_sum_le (sortDesc (debtorsOf b)) (sortDesc (creditorsOf b)) hd hc
  rw [sortDesc_snd_sum, sortDesc_snd_sum] at hsum
  have heq : ((debtorsOf b).map fun x => x.2).sum =
      ((creditorsOf b).map fun x => x.2).sum := by
    have := balance_sum_split b
    rw [hzero] at this
    linarith
  constructor
  · exact (optimize_settlements.eq_def b ▸ hsum.2 :)
  · have hleft := settleLoop_leftover (sortDesc (debtorsOf b)) (sortDesc (creditorsOf b))
    rw [sortDesc_snd_sum, sortDesc_snd_sum, sortDesc_length, sortDesc_length] at hleft
    have hmaxd : ((debtorsOf b).length : ℚ) ≤
        (max (debtorsOf b).length (creditorsOf b).length : ℚ) := by
      exact_mod_cast Nat.cast_le.2 (le_max_left _ _)
    have hmaxc : ((creditorsOf b).length : ℚ) ≤
        (max (debtorsOf b).length (creditorsOf b).length : ℚ) := by
      exact_mod_cast Nat.cast_le.2 (le_max_right _ _)
    unfold optimize_settlements
    rcases hleft with h | h
    · rw [heq] at h
      linarith
    · linarith

/-- C4, witness: for balances {1: -5, 2: +5} the single suggestion of 5
reaches the positive-balance total 5 exactly, within the bound. -/
theorem settlement_sum_bounds_witness :
    ((optimize_settlements [(1, (-5 : ℚ)), (2, 5)]).map fun t => t.2.2).sum ≤
        ((creditorsOf [(1, (-5 : ℚ)), (2, 5)]).map fun x => x.2).sum ∧
    ((creditorsOf [(1, (-5 : ℚ)), (2, 5)]).map fun x => x.2).sum -
        ((optimize_settlements [(1, (-5 : ℚ)), (2, 5)]).map fun t => t.2.2).sum ≤
      (1/100) * (max (debtorsOf [(1, (-5 : ℚ)), (2, 5)]).length
        (creditorsOf [(1, (-5 : ℚ)), (2, 5)]).length : ℚ) :=
  settlement_sum_bounds [(1, (-5 : ℚ)), (2, 5)] (by with_unfolding_all decide)

/-- C10. Every emitted suggestion (p, q, a) has a payer p whose input
balance is strictly negative and a payee q whose input balance is strictly
positive; when the mapping's keys are unique (as for a Python dict) the
payer and payee differ; and when every input balance exceeds 0.01 in
absolute value every suggested amount is at least 0.01. -/
theorem settlement_suggestion_parties (b : List (ℕ × ℚ)) (p q : ℕ) (a : ℚ)
    (hmem : (p, q, a) ∈ optimize_settlements b) :
    (∃ x, (p, x) ∈ b ∧ x < 0) ∧ (∃ y, (q, y) ∈ b ∧ 0 < y) ∧
    ((b.map Prod.fst).Nodup → p ≠ q) ∧
    ((∀ e ∈ b, 1/100 < |e.2|) → 1/100 ≤ a) := by
  unfold optimize_settlements at hmem
  obtain ⟨hp, hq⟩ := settleLoop_mem _ _ _ _ _ hmem
  rw [sortDesc_mem_fst] at hp hq
  have hpx : ∃ x, (p, x) ∈ b ∧ x < 0 := by
    unfold debtorsOf at hp
    rw [List.map_map] at hp
    have hcomp : (Prod.fst ∘ fun e : ℕ × ℚ => (e.1, |e.2|)) = Prod.fst := rfl
    rw [hcomp] at hp
    rcases List.mem_map.1 hp with ⟨e, hin, he⟩
    rcases List.mem_filter.1 hin with ⟨heb, hneg⟩
    refine ⟨e.2, ?_, by simpa using hneg⟩
    rw [← he]
    exact heb
  have hqy : ∃ y, (q, y) ∈ b ∧ 0 < y := by
    unfold creditorsOf at hq
    rcases List.mem_map.1 hq with ⟨e, hin, he⟩
    rcases List.mem_filter.1 hin with ⟨heb, hpos⟩
    refine ⟨e.2, ?_, by simpa using hpos⟩
    rw [← he]
    exact heb
  refine ⟨hpx, hqy, ?_, ?_⟩
  · intro hnod hpq
    rcases hpx with ⟨x, hxb, hxneg⟩
    rcases hqy with ⟨y, hyb, hypos⟩
    subst hpq
    have hx := mem_dict_value hnod hxb
    have hy := mem_dict_value hnod hyb
    have hxy : x = y := hx.trans hy.symm
    linarith
  · intro hall
    refine settleLoop_amount_ge _ _ ?_ ?_ p q a hmem
    · refine (sortDesc_forall _ _).2 ?_
      intro x hx
      unfold debtorsOf at hx
      rcases List.mem_map.1 hx with ⟨e, hin, rfl⟩
      rcases List.mem_filter.1 hin with ⟨heb, -⟩
      exact le_of_lt (hall e heb)
    · refine (sortDesc_forall _ _).2 ?_
      intro x hx
      unfold creditorsOf at hx
      rcases List.mem_filter.1 hx with ⟨heb, hpos⟩
      have hxpos : 0 < x.2 := by simpa using hpos
      have := hall x heb
      rw [abs_of_pos hxpos] at this
      linarith

/-- C10, witness: for balances {1: -5, 2: +5} the emitted suggestion
(1, 2, 5) has a negative-balance payer, a positive-balance payee, distinct
parties, and an amount of at least 0.01. -/
theorem settlement_suggestion_parties_witness :
    (∃ x, ((1 : ℕ), x) ∈ [((1 : ℕ), (-5 : ℚ)), (2, 5)] ∧ x < 0) ∧
    (∃ y, ((2 : ℕ), y) ∈ [((1 : ℕ), (-5 : ℚ)), (2, 5)] ∧ 0 < y) ∧
    ((([((1 : ℕ), (-5 : ℚ)), (2, 5)]).map Prod.fst).Nodup → (1 : ℕ) ≠ 2) ∧
    ((∀ e ∈ [((1 : ℕ), (-5 : ℚ)), (2, 5)], 1/100 < |e.2|) → 1/100 ≤ (5 : ℚ)) :=
  settlement_suggestion_parties [(1, (-5 : ℚ)), (2, 5)] 1 2 5
    (by with_unfolding_all decide)

end ExpenseApp

